import Mathlib

/-!
Verification of the trend-aggregation core of the NIH Reporter MCP server
(`src/server.py`, function `analyze_research_trends`, lines 606-744).

The Python function is shallowly embedded here:

* a retrieved project record (`Project`) carries exactly the fields the
  aggregation reads, each optional because the JSON field may be absent;
* the Record Source is a function from pagination `offset`/`limit` to a page
  of records, fallible (`Except`) because `make_nih_api_request` can raise;
* the batched retrieval `for offset in range(0, max_projects, batch_size)`
  with its two `break`s is rendered as structural recursion over the Python
  range, also returning the list of `(offset, limit)` requests performed;
* `defaultdict` accumulation becomes an insertion-ordered association list
  (Python dicts preserve insertion order);
* Python's `sorted` (Timsort) is a stable sort; any stable sort with the
  same comparator produces the same output, so it is modelled by a stable
  insertion sort.  `sorted(by_year.items())` compares `(key, value)` tuples
  and raises `TypeError` when an `int` fiscal year meets the string
  `"Unknown"`, so that sort gets a partial comparator and an `Option` result;
* the float division for `average_award` is modelled with exact rationals.
-/

/-- The `agency_ic_admin` sub-object of a record; the aggregation reads only
its `code` field (`p.get("agency_ic_admin", {}).get("code", "Unknown")`). -/
structure AgencyIcAdmin where
  code : Option String
deriving DecidableEq, Repr

/-- The `organization` sub-object of a record; the aggregation reads only
`org_name` (`p.get("organization", {}).get("org_name", "Unknown")`). -/
structure Organization where
  org_name : Option String
deriving DecidableEq, Repr

/-- One retrieved project record, restricted to the fields
`analyze_research_trends` reads.  `Option` marks a JSON field that may be
absent from the response object. -/
structure Project where
  project_title : Option String
  award_amount : Option Int
  agency_ic_admin : Option AgencyIcAdmin
  activity_code : Option String
  organization : Option Organization
  fiscal_year : Option Int
deriving DecidableEq, Repr

/-- A record with every optional field absent. -/
def emptyProject : Project :=
  { project_title := none, award_amount := none, agency_ic_admin := none,
    activity_code := none, organization := none, fiscal_year := none }

/-- `p.get("award_amount") or 0`: an absent amount is read as `0`
(`or` also sends an explicit `0` to `0`, which is the identity here). -/
def awardAmount (p : Project) : Int :=
  p.award_amount.getD 0

/-- Per-key accumulator cell `{"count": 0, "funding": 0}` of the
`defaultdict(lambda: {"count": 0, "funding": 0})` groupings. -/
structure GroupCell where
  count : Nat
  funding : Int
deriving DecidableEq, Repr

/-- A fiscal-year grouping key: `p.get("fiscal_year", "Unknown")` is the
integer year when the field is present and the string `"Unknown"` otherwise,
so the key set mixes two Python types. -/
inductive FiscalKey where
  | year (n : Int)
  | unknown
deriving DecidableEq, Repr

/-- Python `range(start, stop, step)` for a positive `step`, via the exact
length formula CPython uses; `Int` division in Lean is floor division for a
positive divisor, as in Python. -/
def pyRange (start stop step : Int) : List Int :=
  (List.range ((stop - start + step - 1) / step).toNat).map
    (fun (i : Nat) => start + step * (i : Int))

/-- The page size `batch_size = 500` of the retrieval loop. -/
def batch_size : Int := 500

/-- One run of the body of
`for offset in range(0, max_projects, batch_size)` over the remaining
offsets.  Faithful to the source: the requested page size is
`min(batch_size, max_projects - offset)`; an exception from
`make_nih_api_request` propagates; an empty page breaks before appending;
a page shorter than `batch_size` is appended and then breaks.  The
accumulating loop is rendered as structural recursion producing the same
concatenation, together with the `(offset, limit)` of every request made. -/
def fetchGo {ε : Type} (src : Int → Int → Except ε (List Project))
    (max_projects : Int) :
    List Int → Except ε (List Project × List (Int × Int))
  | [] => .ok ([], [])
  | o :: rest =>
    let lim := min batch_size (max_projects - o)
    match src o lim with
    | .error e => .error e
    | .ok page =>
      if page.isEmpty then .ok ([], [(o, lim)])
      else if page.length < 500 then .ok (page, [(o, lim)])
      else
        match fetchGo src max_projects rest with
        | .error e => .error e
        | .ok (recs, rqs) => .ok (page ++ recs, (o, lim) :: rqs)

/-- The whole retrieval phase: the loop over
`range(0, max_projects, batch_size)`.  `max_projects` is the already-capped
value computed in `analyze_research_trends`. -/
def fetchAllPages {ε : Type} (src : Int → Int → Except ε (List Project))
    (max_projects : Int) : Except ε (List Project × List (Int × Int)) :=
  fetchGo src max_projects (pyRange 0 max_projects batch_size)

/-- A Record Source whose page fetches always succeed. -/
def okSrc (f : Int → Int → List Project) :
    Int → Int → Except Unit (List Project) :=
  fun o lim => .ok (f o lim)

/-- `defaultdict` update `m[k] = f(m[k])` with default cell `d`, on an
insertion-ordered association list: an existing key is updated in place, a
new key is appended at the end, exactly as a Python dict orders its keys. -/
def updateAssoc {κ ν : Type} [DecidableEq κ] (k : κ) (f : ν → ν) (d : ν) :
    List (κ × ν) → List (κ × ν)
  | [] => [(k, f d)]
  | (k', v) :: rest =>
    if k' = k then (k', f v) :: rest else (k', v) :: updateAssoc k f d rest

/-- `by_x[key]["count"] += 1; by_x[key]["funding"] += (award or 0)`. -/
def bumpGroup {κ : Type} [DecidableEq κ] (k : κ) (amt : Int)
    (m : List (κ × GroupCell)) : List (κ × GroupCell) :=
  updateAssoc k (fun g => { count := g.count + 1, funding := g.funding + amt }) { count := 0, funding := 0 } m

/-- One grouping pass `for p in all_projects: by_x[key(p)] += ...`. -/
def groupFold {κ : Type} [DecidableEq κ] (key : Project → κ)
    (ps : List Project) : List (κ × GroupCell) :=
  ps.foldl (fun m p => bumpGroup (key p) (awardAmount p) m) []

/-- `p.get("agency_ic_admin", {}).get("code", "Unknown")`. -/
def agencyKey (p : Project) : String :=
  match p.agency_ic_admin with
  | none => "Unknown"
  | some a => a.code.getD ("Unknown")

/-- `p.get("activity_code", "Unknown")`. -/
def activityKey (p : Project) : String :=
  p.activity_code.getD ("Unknown")

/-- `p.get("organization", {}).get("org_name", "Unknown")`. -/
def orgKey (p : Project) : String :=
  match p.organization with
  | none => "Unknown"
  | some o => o.org_name.getD ("Unknown")

/-- `p.get("fiscal_year", "Unknown")`. -/
def yearKey (p : Project) : FiscalKey :=
  match p.fiscal_year with
  | none => FiscalKey.unknown
  | some n => FiscalKey.year n

/-- Stable insertion step for a descending sort by `key`: the new element is
placed before the first strictly smaller element, hence after every earlier
element of equal key — the tie behaviour of Python's stable `sorted` with
`reverse=True`. -/
def insertDescBy {α β : Type} [LinearOrder β] (key : α → β) (x : α) :
    List α → List α
  | [] => [x]
  | y :: ys => if key y < key x then x :: y :: ys else y :: insertDescBy key x ys

/-- `sorted(items, key=..., reverse=True)`: a stable descending sort.
Python's Timsort is stable, and every stable sort with the same comparator
yields the same output, so a stable insertion sort models it exactly. -/
def sortDescBy {α β : Type} [LinearOrder β] (key : α → β) (l : List α) :
    List α :=
  l.foldl (fun acc x => insertDescBy key x acc) []

/-- Python `<` on the `(key, value)` items of `by_year`, compared as tuples:
positions are compared with `==` until the first difference, which is then
compared with `<`.  Comparing an `int` year with the string `"Unknown"`
raises `TypeError` (`none`); equal keys fall through to comparing the two
`{count, funding}` dicts, where `==` is fine but `<` again raises. -/
def pyLtYearItem : FiscalKey × GroupCell → FiscalKey × GroupCell → Option Bool
  | (FiscalKey.year m, g), (FiscalKey.year n, g') =>
    if m = n then (if g = g' then some false else none) else some (decide (m < n))
  | (FiscalKey.unknown, g), (FiscalKey.unknown, g') =>
    if g = g' then some false else none
  | _, _ => none

/-- Stable insertion step for `sorted` with a partial Python comparator:
the new element goes before the first element it compares strictly below,
and a `TypeError` (`none`) from the comparator aborts the sort. -/
def insertAscM {α : Type} (lt : α → α → Option Bool) (x : α) :
    List α → Option (List α)
  | [] => some [x]
  | y :: ys =>
    match lt x y with
    | none => none
    | some true => some (x :: y :: ys)
    | some false => (insertAscM lt x ys).map (fun r => y :: r)

/-- `sorted(items)` under a partial comparator: a stable ascending sort that
returns `none` exactly when Python's `sorted` raises `TypeError`.  On a
list with both an integer year and the `"Unknown"` key, any comparison sort
must compare the two types, so Python raises; this model does too. -/
def sortAscM {α : Type} (lt : α → α → Option Bool) (l : List α) :
    Option (List α) :=
  l.foldlM (fun acc x => insertAscM lt x acc) []

/-- The fixed stop-word set of `analyze_research_trends`. -/
def stop_words : List String :=
  ["the", "a", "an", "and", "or", "but", "in", "on", "at", "to", "for",
   "of", "with", "by", "from", "as", "is", "was", "are", "were", "been",
   "be", "have", "has", "had", "do", "does", "did", "will", "would",
   "could", "should", "may", "might", "can"]

/-- Python `str.lower()`, character by character.  (Python lower-cases the
full Unicode range; the claims under verification do not depend on the
behaviour outside ASCII.) -/
def pyLower (s : String) : String :=
  String.mk (s.toList.map Char.toLower)

/-- Python `c.isalnum()`.  (Python accepts all Unicode letters and digits;
the claims under verification do not depend on the exact extension of the
predicate, only on the stripping being applied.) -/
def pyIsAlnum (c : Char) : Bool :=
  c.isAlphanum

/-- `''.join(c for c in word if c.isalnum())`. -/
def cleanWord (w : String) : String :=
  String.mk (w.toList.filter pyIsAlnum)

/-- Helper for `str.split()`: walk the characters keeping the (reversed)
current chunk; whitespace closes a chunk, and empty chunks are dropped. -/
def pySplitAux : List Char → List Char → List String
  | [], cur => if cur.isEmpty then [] else [String.mk cur.reverse]
  | c :: cs, cur =>
    if c.isWhitespace then
      if cur.isEmpty then pySplitAux cs [] else String.mk cur.reverse :: pySplitAux cs []
    else pySplitAux cs (c :: cur)

/-- Python `str.split()` with no argument: split on runs of whitespace,
never returning empty strings. -/
def pySplit (s : String) : List String :=
  pySplitAux s.toList []

/-- The qualifying tokens contributed by one record's title, in order:
`title.lower().split()`, each word stripped to its alphanumeric characters,
kept when longer than 3 characters and not a stop word.  (The source
interleaves cleaning and the qualification test inside one loop; mapping
then filtering visits the same words in the same order.) -/
def titleTokens (p : Project) : List String :=
  ((pySplit (pyLower (p.project_title.getD ("")))).map cleanWord).filter
    (fun w => decide (3 < w.length) && !(stop_words.contains w))

/-- `title_words[word] += 1`. -/
def bumpCount (w : String) (m : List (String × Nat)) : List (String × Nat) :=
  updateAssoc w (fun n => n + 1) 0 m

/-- The token frequency table: the double loop over projects and their
title words. -/
def titleWordCounts (ps : List Project) : List (String × Nat) :=
  ps.foldl (fun m p => (titleTokens p).foldl (fun m' w => bumpCount w m') m) []

/-- The caller-visible arguments of `analyze_research_trends` that the core
summary depends on (`max_projects` and the echoed date range). -/
structure TrendArgs where
  max_projects : Option Int := none
  date_from : Option String := none
  date_to : Option String := none
deriving DecidableEq, Repr

/-- The `summary` block of the result.  `average_award` is an exact
rational; Python computes the same quotient in floating point. -/
structure TrendSummary where
  total_projects : Nat
  total_funding : Int
  average_award : Rat
  date_from : String
  date_to : String
deriving DecidableEq, Repr

/-- One entry of `top_organizations`. -/
structure OrgEntry where
  name : String
  projects : Nat
  total_funding : Int
deriving DecidableEq, Repr

/-- One entry of `common_themes`. -/
structure ThemeEntry where
  word : String
  frequency : Nat
deriving DecidableEq, Repr

/-- The structured result of `analyze_research_trends`; the sorted dicts
are insertion-ordered association lists. -/
structure TrendResult where
  summary : TrendSummary
  by_agency : List (String × GroupCell)
  by_activity_code : List (String × GroupCell)
  top_organizations : List OrgEntry
  by_fiscal_year : List (FiscalKey × GroupCell)
  common_themes : List ThemeEntry
  note : String
deriving DecidableEq, Repr

/-- How an invocation of `analyze_research_trends` can fail: a page fetch
raised (`make_nih_api_request`), or `sorted(by_year.items())` raised
`TypeError` on mixed `int` / `"Unknown"` keys. -/
inductive TrendError (ε : Type) where
  | fetch (e : ε)
  | typeError
deriving DecidableEq, Repr

/-- The aggregation half of `analyze_research_trends` (source lines
666-744), applied to the Retrieved Set: totals, the four groupings, the
top-10 organizations, the title-word themes, and the assembled result.
Returns `none` when `dict(sorted(by_year.items()))` raises `TypeError`. -/
def aggregateTrends (ps : List Project) (args : TrendArgs)
    (max_projects : Int) : Option TrendResult :=
  let total_projects := ps.length
  let total_funding := (ps.map awardAmount).sum
  let by_agency := groupFold agencyKey ps
  let by_activity := groupFold activityKey ps
  let by_org := groupFold orgKey ps
  let top_orgs := (sortDescBy (fun x => x.2.funding) by_org).take 10
  let by_year := groupFold yearKey ps
  let title_words := titleWordCounts ps
  let common_themes := (sortDescBy (fun x => x.2) title_words).take 20
  match sortAscM pyLtYearItem by_year with
  | none => none
  | some by_year_sorted =>
    some
      { summary :=
          { total_projects := total_projects
            total_funding := total_funding
            average_award :=
              if 0 < total_projects then
                (total_funding : Rat) / (total_projects : Rat)
              else 0
            date_from := args.date_from.getD ("Not specified")
            date_to := args.date_to.getD ("Not specified") }
        by_agency := sortDescBy (fun x => x.2.funding) by_agency
        by_activity_code := sortDescBy (fun x => x.2.funding) by_activity
        top_organizations :=
          top_orgs.map (fun x =>
            { name := x.1, projects := x.2.count, total_funding := x.2.funding })
        by_fiscal_year := by_year_sorted
        common_themes :=
          common_themes.map (fun x => { word := x.1, frequency := x.2 })
        note :=
          "Analysis based on " ++ toString total_projects ++
            " projects (requested max: " ++ toString max_projects ++ ")" }

/-- `analyze_research_trends`: cap the requested maximum at 2000, run the
batched retrieval, then aggregate.  A fetch failure aborts the invocation
with that error; the fiscal-year `TypeError` aborts it as `typeError`. -/
def analyze_research_trends {ε : Type}
    (src : Int → Int → Except ε (List Project)) (args : TrendArgs) :
    Except (TrendError ε) TrendResult :=
  let max_projects := min (args.max_projects.getD 500) 2000
  match fetchAllPages src max_projects with
  | .error e => .error (.fetch e)
  | .ok (all_projects, _) =>
    match aggregateTrends all_projects args max_projects with
    | none => .error .typeError
    | some r => .ok r

/-! ## Basic facts about the embedded function -/

/-- A throwaway result used only as an `Option.getD` default in witness
statements; its fields never matter because the option is `some`. -/
def fallbackResult : TrendResult :=
  { summary := { total_projects := 0, total_funding := 0, average_award := 0,
                 date_from := "", date_to := "" },
    by_agency := [], by_activity_code := [], top_organizations := [],
    by_fiscal_year := [], common_themes := [], note := "" }

/-- Inversion of a successful aggregation: the fiscal-year sort succeeded and
every output field is the corresponding expression over the Retrieved Set. -/
theorem aggregateTrends_fields {ps : List Project} {args : TrendArgs}
    {mp : Int} {r : TrendResult} (h : aggregateTrends ps args mp = some r) :
    sortAscM pyLtYearItem (groupFold yearKey ps) = some r.by_fiscal_year
    ∧ r.summary.total_projects = ps.length
    ∧ r.summary.total_funding = (ps.map awardAmount).sum
    ∧ r.summary.average_award =
        (if 0 < ps.length then ((ps.map awardAmount).sum : Rat) / (ps.length : Rat) else 0)
    ∧ r.by_agency = sortDescBy (fun x => x.2.funding) (groupFold agencyKey ps)
    ∧ r.by_activity_code = sortDescBy (fun x => x.2.funding) (groupFold activityKey ps)
    ∧ r.top_organizations =
        ((sortDescBy (fun x => x.2.funding) (groupFold orgKey ps)).take 10).map
          (fun x => { name := x.1, projects := x.2.count, total_funding := x.2.funding })
    ∧ r.common_themes =
        ((sortDescBy (fun x => x.2) (titleWordCounts ps)).take 20).map
          (fun x => { word := x.1, frequency := x.2 }) := by
  simp only [aggregateTrends] at h
  split at h
  · exact absurd h (by simp)
  · next ys hy =>
    obtain rfl : _ = r := Option.some.inj h
    refine ⟨hy, rfl, rfl, rfl, rfl, rfl, rfl, rfl⟩

/-! ## C6: average award -/

/-- C6: in any produced summary, `average_award` is `total_funding` divided
by the total record count when that count is positive, and exactly `0`
(a number, not an error) when the count is `0`. -/
theorem C6_average_award (ps : List Project) (args : TrendArgs) (mp : Int)
    (r : TrendResult) (h : aggregateTrends ps args mp = some r) :
    (r.summary.total_projects = 0 → r.summary.average_award = 0)
    ∧ (0 < r.summary.total_projects →
        r.summary.average_award =
          (r.summary.total_funding : Rat) / (r.summary.total_projects : Rat)) := by
  obtain ⟨-, hc, hf, ha, -⟩ := aggregateTrends_fields h
  constructor
  · intro h0
    rw [hc] at h0
    rw [ha, h0]
    simp
  · intro h0
    rw [hc] at h0
    rw [ha, if_pos h0, hf, hc]

/-- Witness for C6 at the empty Retrieved Set: the summary is produced and
its average award is exactly `0`. -/
theorem C6_average_award_witness :
    ((aggregateTrends [] {} 500).getD fallbackResult).summary.average_award = 0 :=
  (C6_average_award [] {} 500 ((aggregateTrends [] {} 500).getD fallbackResult) rfl).1
    (by decide)

/-! ## C7: the mixed fiscal-year sort raises -/

/-- A record whose fiscal year is present (the integer 2024). -/
def projYear2024 : Project :=
  { emptyProject with fiscal_year := some 2024 }

/-- C7 failing input: on a Retrieved Set holding one record with integer
fiscal year 2024 and one record with the field absent (key `"Unknown"`),
`dict(sorted(by_year.items()))` compares an `int` with a `str` and raises
`TypeError`, so no summary is emitted at all — the aggregation returns the
`TypeError` outcome instead of a fiscal-year grouping sorted by year key. -/
theorem C7_mixed_fiscal_years_type_error :
    aggregateTrends [projYear2024, emptyProject] {} 500 = none
    ∧ analyze_research_trends (okSrc (fun _ _ => [projYear2024, emptyProject]))
        { max_projects := some 2 } = Except.error TrendError.typeError := by
  constructor
  · rfl
  · rfl

/-! ## C8: grouping keys for absent and empty fields -/

/-- A record whose organization object is present with an empty-string name. -/
def projEmptyOrgName : Project :=
  { emptyProject with organization := some { org_name := some ("") } }

/-- A record whose agency object is present with an empty-string code. -/
def projEmptyAgencyCode : Project :=
  { emptyProject with agency_ic_admin := some { code := some ("") } }

/-- C8 counterexample: the claim says an empty-string organization or agency
value is grouped under `"Unknown"`, but `dict.get` returns a present empty
string as-is, so the grouping key is `""`, not `"Unknown"`. -/
theorem C8_counterexample :
    orgKey projEmptyOrgName ≠ ("Unknown")
    ∧ agencyKey projEmptyAgencyCode ≠ ("Unknown")
    ∧ orgKey projEmptyOrgName = ("")
    ∧ agencyKey projEmptyAgencyCode = ("") := by
  refine ⟨?_, ?_, rfl, rfl⟩ <;> decide

/-- C8 amended: the agency and organization grouping keys are `"Unknown"`
exactly when the field is absent (the sub-object missing, or its name/code
key missing); any present string value — the empty string included — is used
as the key unchanged; and the fiscal-year key retains the raw value exactly
as present (or `"Unknown"` when absent). -/
theorem C8_amended_unknown_keys (p : Project) :
    (p.agency_ic_admin = none → agencyKey p = ("Unknown"))
    ∧ (∀ a, p.agency_ic_admin = some a → a.code = none → agencyKey p = ("Unknown"))
    ∧ (∀ a s, p.agency_ic_admin = some a → a.code = some s → agencyKey p = s)
    ∧ (p.organization = none → orgKey p = ("Unknown"))
    ∧ (∀ o, p.organization = some o → o.org_name = none → orgKey p = ("Unknown"))
    ∧ (∀ o s, p.organization = some o → o.org_name = some s → orgKey p = s)
    ∧ (p.fiscal_year = none → yearKey p = FiscalKey.unknown)
    ∧ (∀ n, p.fiscal_year = some n → yearKey p = FiscalKey.year n) := by
  refine ⟨?_, ?_, ?_, ?_, ?_, ?_, ?_, ?_⟩
  · intro h; simp [agencyKey, h]
  · intro a ha hc; simp [agencyKey, ha, hc]
  · intro a s ha hc; simp [agencyKey, ha, hc]
  · intro h; simp [orgKey, h]
  · intro o ho hn; simp [orgKey, ho, hn]
  · intro o s ho hn; simp [orgKey, ho, hn]
  · intro h; simp [yearKey, h]
  · intro n hn; simp [yearKey, hn]

/-- Witness for the amended C8 on concrete records: an absent agency maps to
`"Unknown"`, a present empty-string organization name is kept as `""`, and
an absent fiscal year is keyed `"Unknown"`. -/
theorem C8_amended_unknown_keys_witness :
    agencyKey emptyProject = ("Unknown")
    ∧ orgKey projEmptyOrgName = ("")
    ∧ yearKey emptyProject = FiscalKey.unknown :=
  ⟨(C8_amended_unknown_keys emptyProject).1 rfl,
   (C8_amended_unknown_keys projEmptyOrgName).2.2.2.2.2.1
     { org_name := some ("") } ("") rfl rfl,
   (C8_amended_unknown_keys emptyProject).2.2.2.2.2.2.1 rfl⟩

/-! ## C9: a failing page fetch aborts the invocation -/

/-- C9: a page fetch that raises aborts the retrieval loop at once with that
error, and a retrieval error makes `analyze_research_trends` return exactly
that error — no partial summary is built from the records already fetched. -/
theorem C9_fetch_failure_aborts :
    (∀ (ε : Type) (src : Int → Int → Except ε (List Project)) (cap o : Int)
        (rest : List Int) (e : ε),
        src o (min batch_size (cap - o)) = .error e →
        fetchGo src cap (o :: rest) = .error e)
    ∧ (∀ (ε : Type) (src : Int → Int → Except ε (List Project))
        (args : TrendArgs) (e : ε),
        fetchAllPages src (min (args.max_projects.getD 500) 2000) = .error e →
        analyze_research_trends src args = .error (TrendError.fetch e)) := by
  constructor
  · intro ε src cap o rest e h
    simp only [fetchGo]
    rw [h]
  · intro ε src args e h
    simp only [analyze_research_trends]
    rw [h]

/-- A Record Source whose every page fetch fails. -/
def srcAlwaysFail : Int → Int → Except Nat (List Project) :=
  fun _ _ => .error 0

/-- Witness for C9: with a source that always fails, the default invocation
returns the fetch error. -/
theorem C9_fetch_failure_aborts_witness :
    analyze_research_trends srcAlwaysFail {} = .error (TrendError.fetch 0) :=
  C9_fetch_failure_aborts.2 Nat srcAlwaysFail {} 0 rfl

/-! ## The offset schedule of the retrieval loop -/

/-- An empty Python range: no offsets at all when the cap is not above the
start. -/
theorem pyRange_nil {s cap : Int} (h : cap ≤ s) : pyRange s cap 500 = [] := by
  unfold pyRange
  have hz : ((cap - s + 500 - 1) / 500).toNat = 0 := by omega
  rw [hz]
  rfl

/-- Peeling one offset off the Python range of the retrieval loop. -/
theorem pyRange_cons {s cap : Int} (h : s < cap) :
    pyRange s cap 500 = s :: pyRange (s + 500) cap 500 := by
  unfold pyRange
  have hn : ((cap - s + 500 - 1) / 500).toNat
      = ((cap - (s + 500) + 500 - 1) / 500).toNat + 1 := by omega
  rw [hn, List.range_succ_eq_map]
  simp only [List.map_cons, List.map_map]
  congr 1
  · simp
  · exact List.map_congr_left (fun i _ => by
      simp only [Function.comp_apply]
      push_cast
      ring)

/-- `SchedFrom cap o offs`: `offs` is the part of the loop's offset schedule
`o, o + 500, o + 1000, …` that lies below `cap`. -/
inductive SchedFrom (cap : Int) : Int → List Int → Prop where
  | stop (o : Int) (h : cap ≤ o) : SchedFrom cap o []
  | step (o : Int) (offs : List Int) (h : o < cap)
      (ht : SchedFrom cap (o + 500) offs) : SchedFrom cap o (o :: offs)

/-- The Python range the loop iterates over is such a schedule. -/
theorem schedFrom_pyRange (cap : Int) : ∀ (n : Nat) (s : Int),
    (cap - s).toNat ≤ n → SchedFrom cap s (pyRange s cap 500) := by
  intro n
  induction n with
  | zero =>
    intro s hs
    have h : cap ≤ s := by omega
    rw [pyRange_nil h]
    exact SchedFrom.stop s h
  | succ n ih =>
    intro s hs
    by_cases h : cap ≤ s
    · rw [pyRange_nil h]
      exact SchedFrom.stop s h
    · push_neg at h
      rw [pyRange_cons h]
      exact SchedFrom.step s _ h (ih (s + 500) (by omega))

/-! ## Behaviour of the retrieval loop on successful fetches -/

/-- With an always-successful source, the loop returns exactly the
concatenation of the pages answering the requests it made, and every request
except possibly the last one was answered by a full batch of at least 500
records — so a page that comes back empty or short is never followed by
another request. -/
theorem fetchGo_ok_pages (f : Int → Int → List Project) (cap : Int) :
    ∀ (offs : List Int) (recs : List Project) (rqs : List (Int × Int)),
    fetchGo (okSrc f) cap offs = .ok (recs, rqs) →
    recs = (rqs.map (fun r => f r.1 r.2)).flatten
    ∧ (∀ i (hh : i + 1 < rqs.length),
        500 ≤ (f (rqs.get ⟨i, Nat.lt_of_succ_lt hh⟩).1
                 (rqs.get ⟨i, Nat.lt_of_succ_lt hh⟩).2).length) := by
  intro offs
  induction offs with
  | nil =>
    intro recs rqs h
    simp only [fetchGo] at h
    obtain ⟨rfl, rfl⟩ : recs = [] ∧ rqs = [] := by
      constructor <;> [exact (Prod.mk.injEq .. ▸ Except.ok.inj h.symm).1;
                       exact (Prod.mk.injEq .. ▸ Except.ok.inj h.symm).2]
    exact ⟨rfl, fun i hh => absurd hh (by simp)⟩
  | cons o rest ih =>
    intro recs rqs h
    simp only [fetchGo, okSrc] at h
    split at h
    · -- empty page: stop with nothing appended
      next hempty =>
      obtain ⟨rfl, rfl⟩ : recs = [] ∧ rqs = [(o, min batch_size (cap - o))] := by
        have := Except.ok.inj h
        exact ⟨(Prod.mk.injEq .. ▸ this).1.symm, (Prod.mk.injEq .. ▸ this).2.symm⟩
      refine ⟨?_, ?_⟩
      · simp [List.isEmpty_iff.mp hempty]
      · intro i hh
        simp at hh
    · split at h
      · -- short page: append it and stop
        next hshort =>
        obtain ⟨rfl, rfl⟩ : recs = f o (min batch_size (cap - o))
            ∧ rqs = [(o, min batch_size (cap - o))] := by
          have := Except.ok.inj h
          exact ⟨(Prod.mk.injEq .. ▸ this).1.symm, (Prod.mk.injEq .. ▸ this).2.symm⟩
        refine ⟨by simp, ?_⟩
        intro i hh
        simp at hh
      · -- full page: recurse
        next hempty hfull =>
        split at h
        · exact absurd h (by simp)
        · next recs' rqs' hrec =>
          obtain ⟨rfl, rfl⟩ : recs = f o (min batch_size (cap - o)) ++ recs'
              ∧ rqs = (o, min batch_size (cap - o)) :: rqs' := by
            have := Except.ok.inj h
            exact ⟨(Prod.mk.injEq .. ▸ this).1.symm, (Prod.mk.injEq .. ▸ this).2.symm⟩
          obtain ⟨hjoin, hfullpages⟩ := ih recs' rqs' hrec
          refine ⟨by simp [hjoin], ?_⟩
          intro i hh
          match i with
          | 0 => simpa using Nat.le_of_not_lt hfull
          | Nat.succ j =>
            have hj : j + 1 < rqs'.length := by simpa using hh
            simpa using hfullpages j hj

/-- Along the loop's offset schedule, a source that honours its page limit
can never push the accumulated record count past `cap - o` records from
offset `o` onwards. -/
theorem fetchGo_ok_length {ε : Type} (src : Int → Int → Except ε (List Project))
    (cap : Int)
    (hsrc : ∀ o lim pg, 0 < lim → src o lim = .ok pg → pg.length ≤ lim.toNat) :
    ∀ (offs : List Int) (o : Int), SchedFrom cap o offs →
    ∀ (recs : List Project) (rqs : List (Int × Int)),
    fetchGo src cap offs = .ok (recs, rqs) → recs.length ≤ (cap - o).toNat := by
  intro offs o hsched
  induction hsched with
  | stop o h =>
    intro recs rqs hr
    simp only [fetchGo] at hr
    obtain rfl : recs = [] := (Prod.mk.injEq .. ▸ Except.ok.inj hr.symm).1
    simp
  | step o offs h ht ih =>
    intro recs rqs hr
    have hlim : 0 < min batch_size (cap - o) := by
      simp only [batch_size]
      omega
    simp only [fetchGo] at hr
    split at hr
    · exact absurd hr (by simp)
    · next page hpage =>
      have hlen := hsrc o _ page hlim hpage
      split at hr
      · obtain rfl : recs = [] := (Prod.mk.injEq .. ▸ Except.ok.inj hr.symm).1
        simp
      · split at hr
        · next hshort =>
          obtain rfl : recs = page := (Prod.mk.injEq .. ▸ Except.ok.inj hr.symm).1
          simp only [batch_size] at hlen
          omega
        · next hempty hfull =>
          split at hr
          · exact absurd hr (by simp)
          · next recs' rqs' hrec =>
            obtain rfl : recs = page ++ recs' :=
              (Prod.mk.injEq .. ▸ Except.ok.inj hr.symm).1
            have hr' := ih recs' rqs' hrec
            have hfull' : 500 ≤ page.length := Nat.le_of_not_lt hfull
            simp only [batch_size] at hlen
            simp only [List.length_append]
            omega

/-- The requests the loop performs are an initial run of the offset schedule
it was given, each with the clamped page size
`min(batch_size, max_projects - offset)`. -/
theorem fetchGo_ok_reqs {ε : Type} (src : Int → Int → Except ε (List Project))
    (cap : Int) :
    ∀ (offs : List Int) (recs : List Project) (rqs : List (Int × Int)),
    fetchGo src cap offs = .ok (recs, rqs) →
    rqs.map Prod.fst = offs.take rqs.length
    ∧ ∀ r ∈ rqs, r.2 = min batch_size (cap - r.1) := by
  intro offs
  induction offs with
  | nil =>
    intro recs rqs h
    simp only [fetchGo] at h
    obtain rfl : rqs = [] := (Prod.mk.injEq .. ▸ Except.ok.inj h.symm).2
    simp
  | cons o rest ih =>
    intro recs rqs h
    simp only [fetchGo] at h
    split at h
    · exact absurd h (by simp)
    · next page hpage =>
      split at h
      · obtain rfl : rqs = [(o, min batch_size (cap - o))] :=
          (Prod.mk.injEq .. ▸ Except.ok.inj h.symm).2
        refine ⟨by simp, ?_⟩
        intro r hr
        simp only [List.mem_singleton] at hr
        subst hr
        rfl
      · split at h
        · obtain rfl : rqs = [(o, min batch_size (cap - o))] :=
            (Prod.mk.injEq .. ▸ Except.ok.inj h.symm).2
          refine ⟨by simp, ?_⟩
          intro r hr
          simp only [List.mem_singleton] at hr
          subst hr
          rfl
        · split at h
          · exact absurd h (by simp)
          · next recs' rqs' hrec =>
            obtain rfl : rqs = (o, min batch_size (cap - o)) :: rqs' :=
              (Prod.mk.injEq .. ▸ Except.ok.inj h.symm).2
            obtain ⟨ih1, ih2⟩ := ih recs' rqs' hrec
            refine ⟨?_, ?_⟩
            · simp only [List.map_cons, List.length_cons, List.take_succ_cons, ih1]
            · intro r hr
              rcases List.mem_cons.mp hr with hr | hr
              · subst hr; rfl
              · exact ih2 r hr

/-! ## C1: early termination of the pagination -/

/-- C1: for every cap and every sequence of pages answered by the Record
Source, the Retrieved Set is exactly the concatenation of the answered
pages, and only a request answered by a full batch (at least 500 records,
hence neither empty nor shorter than the size requested for it) is ever
followed by a further request — an empty page stops at once with the set so
far final, a short page is appended and then stops.  In particular a source
whose first page is full and whose second page is empty yields exactly page
one's records, with exactly two requests made and no third one. -/
theorem C1_pagination_early_termination :
    (∀ (f : Int → Int → List Project) (cap : Int) (recs : List Project)
        (rqs : List (Int × Int)),
        fetchAllPages (okSrc f) cap = .ok (recs, rqs) →
        recs = (rqs.map (fun r => f r.1 r.2)).flatten
        ∧ (∀ i (hh : i + 1 < rqs.length),
            500 ≤ (f (rqs.get ⟨i, Nat.lt_of_succ_lt hh⟩).1
                     (rqs.get ⟨i, Nat.lt_of_succ_lt hh⟩).2).length))
    ∧ (∀ (f : Int → Int → List Project) (cap : Int),
        1000 < cap → cap ≤ 2000 →
        (f 0 500).length = 500 → f 500 500 = [] →
        fetchAllPages (okSrc f) cap = .ok (f 0 500, [(0, 500), (500, 500)])) := by
  constructor
  · intro f cap recs rqs h
    exact fetchGo_ok_pages f cap _ recs rqs h
  · intro f cap h1000 h2000 hfull hempty
    have e0 : pyRange 0 cap 500 = 0 :: pyRange 500 cap 500 := by
      rw [pyRange_cons (by omega)]
      norm_num
    have e1 : pyRange 500 cap 500 = 500 :: pyRange 1000 cap 500 := by
      rw [pyRange_cons (by omega)]
      norm_num
    have l0 : min batch_size (cap - 0) = 500 := by
      simp only [batch_size]
      omega
    have l1 : min batch_size (cap - 500) = 500 := by
      simp only [batch_size]
      omega
    have hne : (f 0 500).isEmpty = false := by
      rcases he : (f 0 500).isEmpty with _ | _
      · rfl
      · rw [List.isEmpty_iff.mp he] at hfull
        simp at hfull
    simp only [fetchAllPages, batch_size] at e0 ⊢
    rw [e0, e1]
    simp only [fetchGo, okSrc, l0, l1, hne, hfull, hempty]
    norm_num

/-- A source with exactly one full page: page one holds 500 records, every
later page is empty. -/
def srcOnePage : Int → Int → List Project :=
  fun o _ => if o = 0 then List.replicate 500 emptyProject else []

/-- Witness for C1: the two-page scenario at cap 2000 — the second page is
empty, the run stops after two requests, and the Retrieved Set is page one. -/
theorem C1_pagination_early_termination_witness :
    fetchAllPages (okSrc srcOnePage) 2000 = .ok (srcOnePage 0 500, [(0, 500), (500, 500)]) :=
  C1_pagination_early_termination.2 srcOnePage 2000 (by norm_num) (by norm_num)
    (by simp only [srcOnePage]
        norm_num)
    (by simp only [srcOnePage]
        norm_num)

/-! ## C2: the effective cap -/

/-- C2 counterexample to the claim as stated: at `max_projects = -1` the
effective cap `min(-1, 2000)` is negative, no page is requested, and the
empty Retrieved Set (0 records) already exceeds that cap, so "the number of
records is at most the effective cap" fails on a degenerate invocation. -/
theorem C2_cap_counterexample :
    ¬ (∀ (recs : List Project) (rqs : List (Int × Int)),
        fetchAllPages (okSrc (fun _ _ => [])) (min (-1) 2000) = .ok (recs, rqs) →
        (recs.length : Int) ≤ min (-1) 2000) := by
  intro hcl
  have h := hcl [] [] rfl
  simp at h

/-- C2 amended: for a source honouring its requested page limit, the
Retrieved Set never exceeds `max(min(max_projects, 2000), 0)` records —
at most the effective cap whenever `max_projects` is non-negative, with an
empty set when the cap is not positive; pages are requested at the schedule
offsets `0, 500, 1000, …` below the effective cap (the performed requests
are an initial run of that schedule), and every request's size is clamped
to `min(batch_size, effective_cap - offset)`. -/
theorem C2_cap_respected (ε : Type) (src : Int → Int → Except ε (List Project))
    (mp : Int) (recs : List Project) (rqs : List (Int × Int))
    (hsrc : ∀ o lim pg, 0 < lim → src o lim = .ok pg → pg.length ≤ lim.toNat)
    (h : fetchAllPages src (min mp 2000) = .ok (recs, rqs)) :
    recs.length ≤ (min mp 2000).toNat
    ∧ rqs.map Prod.fst = (pyRange 0 (min mp 2000) 500).take rqs.length
    ∧ (∀ r ∈ rqs, r.2 = min batch_size (min mp 2000 - r.1)) := by
  simp only [fetchAllPages, batch_size] at h
  refine ⟨?_, ?_, ?_⟩
  · have hb := fetchGo_ok_length src (min mp 2000) hsrc _ 0
      (schedFrom_pyRange (min mp 2000) (min mp 2000 - 0).toNat 0 le_rfl) recs rqs h
    omega
  · exact (fetchGo_ok_reqs src (min mp 2000) _ recs rqs h).1
  · exact (fetchGo_ok_reqs src (min mp 2000) _ recs rqs h).2

/-- Witness for the amended C2 at `max_projects = 500` and a source whose
first page is empty: one request of size 500 at offset 0 and no records. -/
theorem C2_cap_respected_witness :
    (([] : List Project)).length ≤ (min (500 : Int) 2000).toNat
    ∧ ([((0 : Int), (500 : Int))].map Prod.fst)
        = (pyRange 0 (min (500 : Int) 2000) 500).take [((0 : Int), (500 : Int))].length
    ∧ (∀ r ∈ [((0 : Int), (500 : Int))], r.2 = min batch_size (min (500 : Int) 2000 - r.1)) :=
  C2_cap_respected Unit (okSrc (fun _ _ => [])) 500 [] [(0, 500)]
    (by intro o lim pg hl hpg
        cases hpg
        simp)
    rfl

/-! ## C10: bounded page requests; the empty-cap invocation -/

/-- On the empty Retrieved Set the aggregation always succeeds with the
all-zero summary: zero count and funding, average exactly 0, the requested
date range echoed, and empty groupings, rankings and themes. -/
theorem aggregateTrends_nil (args : TrendArgs) (mp : Int) :
    aggregateTrends [] args mp = some
      { summary := { total_projects := 0, total_funding := 0, average_award := 0,
                     date_from := args.date_from.getD ("Not specified"),
                     date_to := args.date_to.getD ("Not specified") },
        by_agency := [], by_activity_code := [], top_organizations := [],
        by_fiscal_year := [], common_themes := [],
        note := "Analysis based on 0 projects (requested max: " ++ toString mp ++ ")" } := rfl

/-- C10: the loop performs at most `⌈min(max_projects, 2000) / 500⌉ ≤ 4`
page requests (the loop body is structural recursion over that finite
schedule, so it always terminates); and when the requested maximum is not
positive, no page is requested at all and the invocation returns the
empty-result summary. -/
theorem C10_request_bound_and_empty_cap :
    (∀ (ε : Type) (src : Int → Int → Except ε (List Project)) (mp : Int)
        (recs : List Project) (rqs : List (Int × Int)),
        fetchAllPages src (min mp 2000) = .ok (recs, rqs) →
        rqs.length ≤ ((min mp 2000 + 499) / 500).toNat ∧ rqs.length ≤ 4)
    ∧ (∀ (ε : Type) (src : Int → Int → Except ε (List Project))
        (args : TrendArgs) (z : Int),
        args.max_projects = some z → z ≤ 0 →
        fetchAllPages src (min z 2000) = .ok ([], [])
        ∧ analyze_research_trends src args = .ok
            { summary := { total_projects := 0, total_funding := 0, average_award := 0,
                           date_from := args.date_from.getD ("Not specified"),
                           date_to := args.date_to.getD ("Not specified") },
              by_agency := [], by_activity_code := [], top_organizations := [],
              by_fiscal_year := [], common_themes := [],
              note := "Analysis based on 0 projects (requested max: "
                        ++ toString (min z 2000) ++ ")" }) := by
  constructor
  · intro ε src mp recs rqs h
    simp only [fetchAllPages, batch_size] at h
    have h1 := (fetchGo_ok_reqs src (min mp 2000) _ recs rqs h).1
    have h2 : rqs.length ≤ (pyRange 0 (min mp 2000) 500).length := by
      have := congrArg List.length h1
      simp only [List.length_map, List.length_take] at this
      omega
    have h3 : (pyRange 0 (min mp 2000) 500).length
        = ((min mp 2000 - 0 + 500 - 1) / 500).toNat := by
      simp [pyRange]
    constructor
    · omega
    · omega
  · intro ε src args z hz hz0
    have hcap : min z 2000 ≤ 0 := by omega
    have hfetch : fetchAllPages src (min z 2000) = .ok ([], []) := by
      simp only [fetchAllPages, batch_size]
      rw [pyRange_nil hcap]
      rfl
    refine ⟨hfetch, ?_⟩
    simp only [analyze_research_trends, hz, Option.getD_some]
    rw [hfetch]
    rfl

/-- Fixed arguments requesting a non-positive maximum. -/
def argsZeroMax : TrendArgs :=
  { max_projects := some 0 }

/-- Witness for C10 at `max_projects = 0`: no page is requested and the
empty summary comes back. -/
theorem C10_request_bound_and_empty_cap_witness :
    fetchAllPages (okSrc (fun _ _ => [])) (min 0 2000) = .ok ([], [])
    ∧ analyze_research_trends (okSrc (fun _ _ => [])) argsZeroMax = .ok
        { summary := { total_projects := 0, total_funding := 0, average_award := 0,
                       date_from := argsZeroMax.date_from.getD ("Not specified"),
                       date_to := argsZeroMax.date_to.getD ("Not specified") },
          by_agency := [], by_activity_code := [], top_organizations := [],
          by_fiscal_year := [], common_themes := [],
          note := "Analysis based on 0 projects (requested max: "
                    ++ toString (min (0 : Int) 2000) ++ ")" } :=
  C10_request_bound_and_empty_cap.2 Unit (okSrc (fun _ _ => [])) argsZeroMax 0 rfl le_rfl

/-! ## Permutation and sum facts about the accumulators and sorts -/

/-- Inserting for the descending sort permutes. -/
theorem insertDescBy_perm {α β : Type} [LinearOrder β] (key : α → β) (x : α) :
    ∀ (l : List α), (insertDescBy key x l).Perm (x :: l) := by
  intro l
  induction l with
  | nil => exact List.Perm.refl _
  | cons y ys ih =>
    simp only [insertDescBy]
    split
    · exact List.Perm.refl _
    · exact (ih.cons y).trans (List.Perm.swap x y ys)

/-- The stable descending sort permutes its input. -/
theorem sortDescBy_perm {α β : Type} [LinearOrder β] (key : α → β)
    (l : List α) : (sortDescBy key l).Perm l := by
  have main : ∀ (l acc : List α),
      (l.foldl (fun acc x => insertDescBy key x acc) acc).Perm (acc ++ l) := by
    intro l
    induction l with
    | nil => simp
    | cons x xs ih =>
      intro acc
      refine ((ih (insertDescBy key x acc)).trans ?_)
      refine ((insertDescBy_perm key x acc).append_right xs).trans ?_
      exact List.perm_middle.symm
  simpa using main l []

/-- Inserting for the fallible ascending sort permutes when it succeeds. -/
theorem insertAscM_perm {α : Type} (lt : α → α → Option Bool) (x : α) :
    ∀ (l l' : List α), insertAscM lt x l = some l' → l'.Perm (x :: l) := by
  intro l
  induction l with
  | nil =>
    intro l' h
    cases h
    exact List.Perm.refl _
  | cons y ys ih =>
    intro l' h
    simp only [insertAscM] at h
    match hc : lt x y with
    | none => rw [hc] at h; cases h
    | some true =>
      rw [hc] at h
      cases h
      exact List.Perm.refl _
    | some false =>
      rw [hc] at h
      match hr : insertAscM lt x ys with
      | none => rw [hr] at h; cases h
      | some r =>
        rw [hr] at h
        cases h
        exact ((ih r hr).cons y).trans (List.Perm.swap x y ys)

/-- The fallible ascending sort permutes its input when it succeeds. -/
theorem sortAscM_perm {α : Type} (lt : α → α → Option Bool) :
    ∀ (l l' : List α), sortAscM lt l = some l' → l'.Perm l := by
  have main : ∀ (l acc out : List α),
      List.foldlM (fun acc x => insertAscM lt x acc) acc l = some out →
      out.Perm (acc ++ l) := by
    intro l
    induction l with
    | nil =>
      intro acc out h
      cases h
      simp
    | cons x xs ih =>
      intro acc out h
      simp only [List.foldlM_cons] at h
      match hi : insertAscM lt x acc with
      | none => rw [hi] at h; cases h
      | some acc' =>
        rw [hi] at h
        refine (ih acc' out h).trans ?_
        refine ((insertAscM_perm lt x acc acc' hi).append_right xs).trans ?_
        exact List.perm_middle.symm
  intro l l' h
  simpa using main l [] l' h

/-- One `defaultdict` bump adds exactly `amt` to the funding column. -/
theorem bumpGroup_sum_funding {κ : Type} [DecidableEq κ] (k : κ) (amt : Int) :
    ∀ (m : List (κ × GroupCell)),
    ((bumpGroup k amt m).map (fun x => x.2.funding)).sum
      = (m.map (fun x => x.2.funding)).sum + amt := by
  intro m
  induction m with
  | nil => simp [bumpGroup, updateAssoc]
  | cons kv rest ih =>
    obtain ⟨k', v⟩ := kv
    simp only [bumpGroup, updateAssoc] at ih ⊢
    split
    · simp only [List.map_cons, List.sum_cons]
      ring
    · simp only [List.map_cons, List.sum_cons, ih]
      ring

/-- One `defaultdict` bump adds exactly one to the count column. -/
theorem bumpGroup_sum_count {κ : Type} [DecidableEq κ] (k : κ) (amt : Int) :
    ∀ (m : List (κ × GroupCell)),
    ((bumpGroup k amt m).map (fun x => x.2.count)).sum
      = (m.map (fun x => x.2.count)).sum + 1 := by
  intro m
  induction m with
  | nil => simp [bumpGroup, updateAssoc]
  | cons kv rest ih =>
    obtain ⟨k', v⟩ := kv
    simp only [bumpGroup, updateAssoc] at ih ⊢
    split
    · simp only [List.map_cons, List.sum_cons]
      omega
    · simp only [List.map_cons, List.sum_cons, ih]
      omega

/-- A grouping pass puts every record's funding in exactly one cell, so the
funding column sums to the total funding of the Retrieved Set. -/
theorem groupFold_sum_funding {κ : Type} [DecidableEq κ] (key : Project → κ)
    (ps : List Project) :
    ((groupFold key ps).map (fun x => x.2.funding)).sum
      = (ps.map awardAmount).sum := by
  have main : ∀ (ps : List Project) (m : List (κ × GroupCell)),
      ((ps.foldl (fun m p => bumpGroup (key p) (awardAmount p) m) m).map
          (fun x => x.2.funding)).sum
        = (m.map (fun x => x.2.funding)).sum + (ps.map awardAmount).sum := by
    intro ps
    induction ps with
    | nil => simp
    | cons p rest ih =>
      intro m
      simp only [List.foldl_cons, List.map_cons, List.sum_cons, ih,
        bumpGroup_sum_funding]
      ring
  simpa using main ps []

/-- A grouping pass counts every record exactly once, so the count column
sums to the size of the Retrieved Set. -/
theorem groupFold_sum_count {κ : Type} [DecidableEq κ] (key : Project → κ)
    (ps : List Project) :
    ((groupFold key ps).map (fun x => x.2.count)).sum = ps.length := by
  have main : ∀ (ps : List Project) (m : List (κ × GroupCell)),
      ((ps.foldl (fun m p => bumpGroup (key p) (awardAmount p) m) m).map
          (fun x => x.2.count)).sum
        = (m.map (fun x => x.2.count)).sum + ps.length := by
    intro ps
    induction ps with
    | nil => simp
    | cons p rest ih =>
      intro m
      simp only [List.foldl_cons, List.map_cons, List.sum_cons, ih,
        bumpGroup_sum_count, List.length_cons]
      omega
  simpa using main ps []

/-! ## C3: grouping sums reconcile with the totals -/

/-- C3: in any produced summary, each grouping dimension's funding column
sums to `total_funding` and its count column sums to the total record count
(absent award amounts counted as 0).  The agency, activity-code and
fiscal-year groupings are read off the emitted result; the organization
dimension is its Group Accumulator, of which the output surfaces only the
top-10 projection. -/
theorem C3_grouping_sums (ps : List Project) (args : TrendArgs) (mp : Int)
    (r : TrendResult) (h : aggregateTrends ps args mp = some r) :
    ((r.by_agency.map (fun x => x.2.funding)).sum = r.summary.total_funding
      ∧ (r.by_agency.map (fun x => x.2.count)).sum = r.summary.total_projects)
    ∧ ((r.by_activity_code.map (fun x => x.2.funding)).sum = r.summary.total_funding
      ∧ (r.by_activity_code.map (fun x => x.2.count)).sum = r.summary.total_projects)
    ∧ (((groupFold orgKey ps).map (fun x => x.2.funding)).sum = r.summary.total_funding
      ∧ ((groupFold orgKey ps).map (fun x => x.2.count)).sum = r.summary.total_projects)
    ∧ ((r.by_fiscal_year.map (fun x => x.2.funding)).sum = r.summary.total_funding
      ∧ (r.by_fiscal_year.map (fun x => x.2.count)).sum = r.summary.total_projects) := by
  obtain ⟨hy, hc, hf, -, hag, hact, -, -⟩ := aggregateTrends_fields h
  have hyp : r.by_fiscal_year.Perm (groupFold yearKey ps) :=
    sortAscM_perm pyLtYearItem (groupFold yearKey ps) r.by_fiscal_year hy
  refine ⟨⟨?_, ?_⟩, ⟨?_, ?_⟩, ⟨?_, ?_⟩, ⟨?_, ?_⟩⟩
  · rw [hag, hf, ((sortDescBy_perm (fun x => x.2.funding) (groupFold agencyKey ps)).map
      (fun x => x.2.funding)).sum_eq, groupFold_sum_funding]
  · rw [hag, hc, ((sortDescBy_perm (fun x => x.2.funding) (groupFold agencyKey ps)).map
      (fun x => x.2.count)).sum_eq, groupFold_sum_count]
  · rw [hact, hf, ((sortDescBy_perm (fun x => x.2.funding) (groupFold activityKey ps)).map
      (fun x => x.2.funding)).sum_eq, groupFold_sum_funding]
  · rw [hact, hc, ((sortDescBy_perm (fun x => x.2.funding) (groupFold activityKey ps)).map
      (fun x => x.2.count)).sum_eq, groupFold_sum_count]
  · rw [hf, groupFold_sum_funding]
  · rw [hc, groupFold_sum_count]
  · rw [hf, (hyp.map (fun x => x.2.funding)).sum_eq, groupFold_sum_funding]
  · rw [hc, (hyp.map (fun x => x.2.count)).sum_eq, groupFold_sum_count]

/-- Witness record: NCI imaging project at Univ A, fiscal year 2024. -/
def projA : Project :=
  { project_title := some ("Cancer Imaging Study"), award_amount := some 100000,
    agency_ic_admin := some { code := some ("NCI") },
    activity_code := some ("R01"),
    organization := some { org_name := some ("Univ A") },
    fiscal_year := some 2024 }

/-- Witness record: NCI prevention project at Univ B, fiscal year 2024. -/
def projB : Project :=
  { project_title := some ("Cancer Prevention Trial"), award_amount := some 200000,
    agency_ic_admin := some { code := some ("NCI") },
    activity_code := some ("U01"),
    organization := some { org_name := some ("Univ B") },
    fiscal_year := some 2024 }

/-- Witness record: NIDDK genomics project at Univ A, fiscal year 2025. -/
def projC : Project :=
  { project_title := some ("Diabetes Genomics"), award_amount := some 50000,
    agency_ic_admin := some { code := some ("NIDDK") },
    activity_code := some ("R01"),
    organization := some { org_name := some ("Univ A") },
    fiscal_year := some 2025 }

/-- The concrete Retrieved Set used by the aggregation witnesses. -/
def psW : List Project := [projA, projB, projC]

/-- The summary the aggregation produces on `psW`. -/
def resultW : TrendResult := (aggregateTrends psW {} 500).getD fallbackResult

/-- Witness for C3 on the concrete three-record Retrieved Set. -/
theorem C3_grouping_sums_witness :
    ((resultW.by_agency.map (fun x => x.2.funding)).sum = resultW.summary.total_funding
      ∧ (resultW.by_agency.map (fun x => x.2.count)).sum = resultW.summary.total_projects)
    ∧ ((resultW.by_activity_code.map (fun x => x.2.funding)).sum = resultW.summary.total_funding
      ∧ (resultW.by_activity_code.map (fun x => x.2.count)).sum = resultW.summary.total_projects)
    ∧ (((groupFold orgKey psW).map (fun x => x.2.funding)).sum = resultW.summary.total_funding
      ∧ ((groupFold orgKey psW).map (fun x => x.2.count)).sum = resultW.summary.total_projects)
    ∧ ((resultW.by_fiscal_year.map (fun x => x.2.funding)).sum = resultW.summary.total_funding
      ∧ (resultW.by_fiscal_year.map (fun x => x.2.count)).sum = resultW.summary.total_projects) :=
  C3_grouping_sums psW {} 500 resultW rfl

/-! ## Sortedness and stability of the descending sort -/

/-- Inserting into a descending-sorted list keeps it descending-sorted. -/
theorem insertDescBy_pairwise {α β : Type} [LinearOrder β] (key : α → β) (x : α) :
    ∀ (l : List α), List.Pairwise (fun a b => key b ≤ key a) l →
    List.Pairwise (fun a b => key b ≤ key a) (insertDescBy key x l) := by
  intro l
  induction l with
  | nil => intro _; simp [insertDescBy]
  | cons y ys ih =>
    intro h
    obtain ⟨hy, hys⟩ := List.pairwise_cons.mp h
    simp only [insertDescBy]
    split
    · next hlt =>
      refine List.pairwise_cons.mpr ⟨?_, h⟩
      intro z hz
      rcases List.mem_cons.mp hz with rfl | hz
      · exact hlt.le
      · exact (hy z hz).trans hlt.le
    · next hge =>
      refine List.pairwise_cons.mpr ⟨?_, ih hys⟩
      intro z hz
      rcases List.mem_cons.mp ((insertDescBy_perm key x ys).mem_iff.mp hz) with rfl | hz
      · exact not_lt.mp hge
      · exact hy z hz

/-- The descending sort's output is descending-sorted (non-increasing keys). -/
theorem sortDescBy_pairwise {α β : Type} [LinearOrder β] (key : α → β)
    (l : List α) :
    List.Pairwise (fun a b => key b ≤ key a) (sortDescBy key l) := by
  have main : ∀ (l acc : List α),
      List.Pairwise (fun a b => key b ≤ key a) acc →
      List.Pairwise (fun a b => key b ≤ key a)
        (l.foldl (fun acc x => insertDescBy key x acc) acc) := by
    intro l
    induction l with
    | nil => intro acc h; exact h
    | cons x xs ih =>
      intro acc h
      exact ih _ (insertDescBy_pairwise key x acc h)
  exact main l [] (by simp)

/-- Stability of one insertion: restricted to any one key value `c`, the
inserted element lands exactly at the end of the tie class when its key is
`c`, and the tie class is untouched otherwise — because insertion walks past
every element of key `≥ key x` and the remaining suffix of a sorted list has
keys strictly below `key x`. -/
theorem insertDescBy_filter {α β : Type} [LinearOrder β] (key : α → β)
    (c : β) (x : α) :
    ∀ (l : List α), List.Pairwise (fun a b => key b ≤ key a) l →
    (insertDescBy key x l).filter (fun a => decide (key a = c))
      = if key x = c then
          l.filter (fun a => decide (key a = c)) ++ [x]
        else l.filter (fun a => decide (key a = c)) := by
  intro l
  induction l with
  | nil =>
    intro _
    by_cases hxc : key x = c <;> simp [insertDescBy, hxc]
  | cons y ys ih =>
    intro h
    obtain ⟨hy, hys⟩ := List.pairwise_cons.mp h
    simp only [insertDescBy]
    split
    · next hlt =>
      by_cases hxc : key x = c
      · have hnil : (y :: ys).filter (fun a => decide (key a = c)) = [] := by
          rw [List.filter_eq_nil_iff]
          intro a ha
          have halt : key a < c := by
            rcases List.mem_cons.mp ha with rfl | ha
            · exact hxc ▸ hlt
            · exact lt_of_le_of_lt (hy a ha) (hxc ▸ hlt)
          simp [ne_of_lt halt]
        rw [if_pos hxc, hnil, List.filter_cons_of_pos (by simp [hxc]), hnil]
        rfl
      · rw [if_neg hxc, List.filter_cons_of_neg (by simp [hxc])]
    · next hge =>
      have ihe := ih hys
      by_cases hyc : key y = c
      · rw [List.filter_cons_of_pos (by simp [hyc]), ihe,
          List.filter_cons_of_pos (by simp [hyc])]
        by_cases hxc : key x = c <;> simp [hxc]
      · rw [List.filter_cons_of_neg (by simp [hyc]), ihe,
          List.filter_cons_of_neg (by simp [hyc])]

/-- Stability of the whole sort: for every key value `c`, sorting does not
reorder the elements whose key is `c` — Python's `sorted` is stable. -/
theorem sortDescBy_filter {α β : Type} [LinearOrder β] (key : α → β) (c : β)
    (l : List α) :
    (sortDescBy key l).filter (fun a => decide (key a = c))
      = l.filter (fun a => decide (key a = c)) := by
  have main : ∀ (l acc : List α),
      List.Pairwise (fun a b => key b ≤ key a) acc →
      (l.foldl (fun acc x => insertDescBy key x acc) acc).filter
          (fun a => decide (key a = c))
        = acc.filter (fun a => decide (key a = c))
            ++ l.filter (fun a => decide (key a = c)) := by
    intro l
    induction l with
    | nil => intro acc _; simp
    | cons x xs ih =>
      intro acc h
      rw [List.foldl_cons, ih _ (insertDescBy_pairwise key x acc h),
        insertDescBy_filter key c x acc h]
      by_cases hxc : key x = c
      · rw [if_pos hxc, List.filter_cons_of_pos (by simp [hxc]),
          List.append_assoc, List.singleton_append]
      · rw [if_neg hxc, List.filter_cons_of_neg (by simp [hxc])]
  simpa using main l [] (by simp)

/-! ## Positions, filters and first-occurrence order -/

/-- The position of the first occurrence of `a` in a list (the list's length
when absent): Python's `list.index`, used to speak about first-encountered
order. -/
def firstIdx {α : Type} [DecidableEq α] (a : α) : List α → Nat
  | [] => 0
  | b :: l => if b = a then 0 else firstIdx a l + 1

/-- A present element's first occurrence is a real position. -/
theorem firstIdx_lt_length {α : Type} [DecidableEq α] (a : α) :
    ∀ (l : List α), a ∈ l → firstIdx a l < l.length := by
  intro l
  induction l with
  | nil => intro h; simp at h
  | cons b bs ih =>
    intro h
    by_cases hba : b = a
    · simp [firstIdx, hba]
    · have hm : a ∈ bs := (List.mem_cons.mp h).resolve_left
        (fun hEq => hba hEq.symm)
      simp only [firstIdx, if_neg hba, List.length_cons]
      exact Nat.succ_lt_succ (ih hm)

/-- In a prefix that holds `a`, positions are unchanged by an appended tail. -/
theorem firstIdx_append_of_mem {α : Type} [DecidableEq α] {a : α} :
    ∀ {l₁ : List α} (l₂ : List α), a ∈ l₁ →
    firstIdx a (l₁ ++ l₂) = firstIdx a l₁ := by
  intro l₁
  induction l₁ with
  | nil => intro l₂ h; simp at h
  | cons b bs ih =>
    intro l₂ h
    by_cases hba : b = a
    · simp [firstIdx, hba]
    · have hm : a ∈ bs := (List.mem_cons.mp h).resolve_left
        (fun hEq => hba hEq.symm)
      simp only [List.cons_append, firstIdx, if_neg hba, List.append_eq]
      rw [ih l₂ hm]

/-- An element absent from the prefix is first found past it. -/
theorem firstIdx_append_of_not_mem {α : Type} [DecidableEq α] {a : α} :
    ∀ {l₁ : List α} (l₂ : List α), a ∉ l₁ →
    firstIdx a (l₁ ++ l₂) = l₁.length + firstIdx a l₂ := by
  intro l₁
  induction l₁ with
  | nil => intro l₂ _; simp
  | cons b bs ih =>
    intro l₂ h
    have hne : b ≠ a := fun hba => h (hba ▸ List.mem_cons_self b bs)
    have hnbs : a ∉ bs := fun hm => h (List.mem_cons_of_mem b hm)
    simp only [List.cons_append, firstIdx, if_neg hne, List.append_eq,
      List.length_cons]
    rw [ih l₂ hnbs]
    omega

/-- On a duplicate-free list, the element at position `i` first occurs at
position `i`. -/
theorem firstIdx_getElem {α : Type} [DecidableEq α] :
    ∀ (l : List α), l.Nodup → ∀ (i : Nat) (h : i < l.length),
    firstIdx (l.get ⟨i, h⟩) l = i := by
  intro l
  induction l with
  | nil => intro _ i h; simp at h
  | cons b bs ih =>
    intro hnd i h
    obtain ⟨hb, hbs⟩ := List.nodup_cons.mp hnd
    revert h
    cases i with
    | zero =>
      intro h
      have hget : (b :: bs).get ⟨0, h⟩ = b := rfl
      rw [hget]
      simp [firstIdx]
    | succ j =>
      intro h
      have hj : j < bs.length := by simpa using h
      have hget : (b :: bs).get ⟨j + 1, h⟩ = bs.get ⟨j, hj⟩ := rfl
      have hmem : bs.get ⟨j, hj⟩ ∈ bs := List.get_mem bs j hj
      have hne : b ≠ bs.get ⟨j, hj⟩ := fun hEq => hb (hEq ▸ hmem)
      rw [hget]
      simp only [firstIdx, if_neg hne]
      rw [ih hbs j hj]

/-- A pairwise relation holds between elements ordered by first occurrence. -/
theorem pairwise_rel_of_firstIdx_lt {α : Type} [DecidableEq α]
    {R : α → α → Prop} :
    ∀ (l : List α), List.Pairwise R l → ∀ a b, a ∈ l → b ∈ l →
    firstIdx a l < firstIdx b l → R a b := by
  intro l
  induction l with
  | nil => intro _ a b ha; simp at ha
  | cons x xs ih =>
    intro hp a b ha hb hlt
    obtain ⟨hx, hxs⟩ := List.pairwise_cons.mp hp
    by_cases hxa : x = a
    · by_cases hxb : x = b
      · rw [firstIdx, firstIdx, if_pos hxa, if_pos hxb] at hlt
        simp at hlt
      · have hbm : b ∈ xs := (List.mem_cons.mp hb).resolve_left
          (fun hEq => hxb hEq.symm)
        exact hxa ▸ hx b hbm
    · by_cases hxb : x = b
      · rw [firstIdx, firstIdx, if_neg hxa, if_pos hxb] at hlt
        simp at hlt
      · have ham : a ∈ xs := (List.mem_cons.mp ha).resolve_left
          (fun hEq => hxa hEq.symm)
        have hbm : b ∈ xs := (List.mem_cons.mp hb).resolve_left
          (fun hEq => hxb hEq.symm)
        rw [firstIdx, firstIdx, if_neg hxa, if_neg hxb] at hlt
        exact ih hxs a b ham hbm (by omega)

/-- On a duplicate-free list, filtering preserves the relative order of any
two surviving elements. -/
theorem filter_firstIdx_lt_iff {α : Type} [DecidableEq α] (p : α → Bool) :
    ∀ (l : List α), l.Nodup → ∀ a b, a ∈ l → b ∈ l → p a = true → p b = true →
    (firstIdx a (l.filter p) < firstIdx b (l.filter p)
      ↔ firstIdx a l < firstIdx b l) := by
  intro l
  induction l with
  | nil =>
    intro _ a b ha
    simp at ha
  | cons x xs ih =>
    intro hnd a b ha hb hpa hpb
    obtain ⟨hx, hxs⟩ := List.nodup_cons.mp hnd
    by_cases hxa : x = a
    · subst hxa
      by_cases hxb : x = b
      · subst hxb
        exact iff_of_false (lt_irrefl _) (lt_irrefl _)
      · rw [List.filter_cons_of_pos hpa]
        simp only [firstIdx, eq_self_iff_true, if_true, if_neg hxb]
        omega
    · by_cases hxb : x = b
      · subst hxb
        rw [List.filter_cons_of_pos hpb]
        simp only [firstIdx, eq_self_iff_true, if_true, if_neg hxa]
        omega
      · have haxs : a ∈ xs := (List.mem_cons.mp ha).resolve_left
          (fun hEq => hxa hEq.symm)
        have hbxs : b ∈ xs := (List.mem_cons.mp hb).resolve_left
          (fun hEq => hxb hEq.symm)
        have hih := ih hxs a b haxs hbxs hpa hpb
        rcases hpx : p x with _ | _
        · rw [List.filter_cons_of_neg (by simp [hpx])]
          simp only [firstIdx, if_neg hxa, if_neg hxb]
          omega
        · rw [List.filter_cons_of_pos hpx]
          simp only [firstIdx, if_neg hxa, if_neg hxb]
          omega

/-- When the key column of an association list is duplicate-free, an entry
sits at the same position as its key. -/
theorem mapfst_firstIdx {κ ν : Type} [DecidableEq κ] [DecidableEq ν] :
    ∀ (m : List (κ × ν)), (m.map Prod.fst).Nodup →
    ∀ x, x ∈ m → firstIdx x.1 (m.map Prod.fst) = firstIdx x m := by
  intro m
  induction m with
  | nil =>
    intro _ x hx
    simp at hx
  | cons y rest ih =>
    intro hnd x hx
    rw [List.map_cons] at hnd
    obtain ⟨hy1, hrest⟩ := List.nodup_cons.mp hnd
    by_cases hxy : x = y
    · subst hxy
      simp [List.map_cons, firstIdx]
    · have hxrest : x ∈ rest := (List.mem_cons.mp hx).resolve_left hxy
      have hx1 : x.1 ∈ rest.map Prod.fst := List.mem_map_of_mem Prod.fst hxrest
      have hne1 : y.1 ≠ x.1 := fun h => hy1 (h ▸ hx1)
      have hyx : y ≠ x := fun h => hxy h.symm
      simp only [List.map_cons, firstIdx, if_neg hne1, if_neg hyx]
      rw [ih hrest x hxrest]

/-! ## Insertion order of the accumulator keys -/

/-- A `defaultdict` update leaves the key column unchanged for a known key
and appends a new key at the end. -/
theorem updateAssoc_keys {κ ν : Type} [DecidableEq κ] (k : κ) (f : ν → ν)
    (d : ν) :
    ∀ (m : List (κ × ν)), (updateAssoc k f d m).map Prod.fst
      = if k ∈ m.map Prod.fst then m.map Prod.fst else m.map Prod.fst ++ [k] := by
  intro m
  induction m with
  | nil => simp [updateAssoc]
  | cons kv rest ih =>
    obtain ⟨k', v⟩ := kv
    simp only [updateAssoc]
    split
    · next hEq =>
      subst hEq
      simp
    · next hne =>
      have hkk : k' ≠ k := hne
      simp only [List.map_cons, ih]
      by_cases hk : k ∈ rest.map Prod.fst
      · rw [if_pos hk, if_pos (List.mem_cons_of_mem _ hk)]
      · rw [if_neg hk, if_neg ?_, List.cons_append]
        intro hc
        rcases List.mem_cons.mp hc with hc | hc
        · exact hkk hc.symm
        · exact hk hc

/-- Running a `defaultdict` fold keyed by `K` keeps the key column
duplicate-free, with exactly the keys seen so far, ordered by first
occurrence in the processed stream. -/
theorem foldl_updateAssoc_keys {α κ ν : Type} [DecidableEq κ]
    (K : α → κ) (F : α → ν → ν) (d : ν) :
    ∀ (l : List α) (m : List (κ × ν)) (pref : List κ),
    (∀ k, k ∈ m.map Prod.fst ↔ k ∈ pref) →
    List.Pairwise (fun a b => firstIdx a pref < firstIdx b pref)
      (m.map Prod.fst) →
    (∀ k, k ∈ ((l.foldl (fun m a => updateAssoc (K a) (F a) d m) m).map Prod.fst)
        ↔ k ∈ pref ++ l.map K)
    ∧ List.Pairwise
        (fun a b => firstIdx a (pref ++ l.map K) < firstIdx b (pref ++ l.map K))
        ((l.foldl (fun m a => updateAssoc (K a) (F a) d m) m).map Prod.fst) := by
  intro l
  induction l with
  | nil =>
    intro m pref hmem hpw
    simp only [List.foldl_nil, List.map_nil, List.append_nil]
    exact ⟨hmem, hpw⟩
  | cons a rest ih =>
    intro m pref hmem hpw
    have hmem' : ∀ k, k ∈ (updateAssoc (K a) (F a) d m).map Prod.fst
        ↔ k ∈ pref ++ [K a] := by
      intro k
      rw [updateAssoc_keys]
      by_cases hka : K a ∈ m.map Prod.fst
      · rw [if_pos hka]
        constructor
        · intro h
          exact List.mem_append_left _ ((hmem k).mp h)
        · intro h
          rcases List.mem_append.mp h with h | h
          · exact (hmem k).mpr h
          · rw [List.mem_singleton.mp h]
            exact hka
      · rw [if_neg hka]
        constructor
        · intro h
          rcases List.mem_append.mp h with h | h
          · exact List.mem_append_left _ ((hmem k).mp h)
          · exact List.mem_append_right _ h
        · intro h
          rcases List.mem_append.mp h with h | h
          · exact List.mem_append_left _ ((hmem k).mpr h)
          · exact List.mem_append_right _ h
    have hpw' : List.Pairwise
        (fun x y => firstIdx x (pref ++ [K a]) < firstIdx y (pref ++ [K a]))
        ((updateAssoc (K a) (F a) d m).map Prod.fst) := by
      have hkeep : List.Pairwise
          (fun x y => firstIdx x (pref ++ [K a]) < firstIdx y (pref ++ [K a]))
          (m.map Prod.fst) := by
        refine hpw.imp_of_mem ?_
        intro x y hxm hym hlt
        rw [firstIdx_append_of_mem _ ((hmem x).mp hxm),
          firstIdx_append_of_mem _ ((hmem y).mp hym)]
        exact hlt
      rw [updateAssoc_keys]
      by_cases hka : K a ∈ m.map Prod.fst
      · rw [if_pos hka]
        exact hkeep
      · rw [if_neg hka]
        refine List.pairwise_append.mpr ⟨hkeep, List.pairwise_singleton _ _, ?_⟩
        intro x hxm y hy
        rw [List.mem_singleton.mp hy]
        have hxp : x ∈ pref := (hmem x).mp hxm
        have hkp : K a ∉ pref := fun hc => hka ((hmem (K a)).mpr hc)
        rw [firstIdx_append_of_mem _ hxp, firstIdx_append_of_not_mem _ hkp]
        have := firstIdx_lt_length x pref hxp
        omega
    have hstep := ih (updateAssoc (K a) (F a) d m) (pref ++ [K a]) hmem' hpw'
    rw [List.append_assoc, List.singleton_append] at hstep
    simpa using hstep

/-- The organization (or any) Group Accumulator lists its keys in
first-encountered order over the Retrieved Set. -/
theorem groupFold_keys_pairwise {κ : Type} [DecidableEq κ]
    (key : Project → κ) (ps : List Project) :
    List.Pairwise
      (fun a b => firstIdx a (ps.map key) < firstIdx b (ps.map key))
      ((groupFold key ps).map Prod.fst) := by
  have h := (foldl_updateAssoc_keys key
    (fun (p : Project) (g : GroupCell) =>
      ({ count := g.count + 1, funding := g.funding + awardAmount p } : GroupCell))
    ({ count := 0, funding := 0 } : GroupCell) ps [] [] (by simp) (by simp)).2
  simpa only [List.nil_append] using h

/-- The Group Accumulator holds exactly the keys occurring in the set. -/
theorem groupFold_keys_mem {κ : Type} [DecidableEq κ]
    (key : Project → κ) (ps : List Project) (k : κ) :
    k ∈ (groupFold key ps).map Prod.fst ↔ k ∈ ps.map key := by
  have h := (foldl_updateAssoc_keys key
    (fun (p : Project) (g : GroupCell) =>
      ({ count := g.count + 1, funding := g.funding + awardAmount p } : GroupCell))
    ({ count := 0, funding := 0 } : GroupCell) ps [] [] (by simp) (by simp)).1 k
  simpa only [List.nil_append] using h

/-- The Group Accumulator's key column is duplicate-free. -/
theorem groupFold_keys_nodup {κ : Type} [DecidableEq κ]
    (key : Project → κ) (ps : List Project) :
    ((groupFold key ps).map Prod.fst).Nodup :=
  (groupFold_keys_pairwise key ps).imp
    (fun {a b} h hEq => absurd h (by rw [hEq]; exact lt_irrefl _))

/-- The full stream of qualifying tokens of the Retrieved Set, in title
order and then within-title word order. -/
def tokenStream (ps : List Project) : List String :=
  (ps.map titleTokens).flatten

/-- The nested token-counting loop is the flat fold over the token stream. -/
theorem titleWordCounts_eq (ps : List Project) :
    titleWordCounts ps
      = (tokenStream ps).foldl (fun m w => bumpCount w m) [] := by
  have main : ∀ (ps : List Project) (m : List (String × Nat)),
      ps.foldl (fun m p => (titleTokens p).foldl (fun m' w => bumpCount w m') m) m
        = ((ps.map titleTokens).flatten).foldl (fun m w => bumpCount w m) m := by
    intro ps
    induction ps with
    | nil => intro m; rfl
    | cons p rest ih =>
      intro m
      simp only [List.foldl_cons, List.map_cons, List.flatten_cons,
        List.foldl_append]
      rw [ih]
  exact main ps []

/-- The Token Frequency Table lists its words in first-occurrence order over
the token stream. -/
theorem titleWordCounts_keys_pairwise (ps : List Project) :
    List.Pairwise
      (fun a b => firstIdx a (tokenStream ps) < firstIdx b (tokenStream ps))
      ((titleWordCounts ps).map Prod.fst) := by
  rw [titleWordCounts_eq]
  have h := (foldl_updateAssoc_keys (fun (w : String) => w)
    (fun _ n => n + 1) 0 (tokenStream ps) [] [] (by simp) (by simp)).2
  simpa only [List.map_id', List.nil_append] using h

/-- The Token Frequency Table holds exactly the words of the token stream. -/
theorem titleWordCounts_keys_mem (ps : List Project) (w : String) :
    w ∈ (titleWordCounts ps).map Prod.fst ↔ w ∈ tokenStream ps := by
  rw [titleWordCounts_eq]
  have h := (foldl_updateAssoc_keys (fun (w : String) => w)
    (fun _ n => n + 1) 0 (tokenStream ps) [] [] (by simp) (by simp)).1 w
  simpa only [List.map_id', List.nil_append] using h

/-- The Token Frequency Table's word column is duplicate-free. -/
theorem titleWordCounts_keys_nodup (ps : List Project) :
    ((titleWordCounts ps).map Prod.fst).Nodup :=
  (titleWordCounts_keys_pairwise ps).imp
    (fun {a b} h hEq => absurd h (by rw [hEq]; exact lt_irrefl _))

/-- A duplicate-free list with the same members as `ks` has as many elements
as `ks` has distinct values. -/
theorem nodup_length_eq_dedup {κ : Type} [DecidableEq κ]
    (keys ks : List κ) (hnd : keys.Nodup) (hmem : ∀ k, k ∈ keys ↔ k ∈ ks) :
    keys.length = ks.dedup.length := by
  have h1 : keys.toFinset = ks.dedup.toFinset := by
    ext k
    simp only [List.mem_toFinset, List.mem_dedup]
    exact hmem k
  have h2 := List.toFinset_card_of_nodup hnd
  have h3 := List.toFinset_card_of_nodup (List.nodup_dedup ks)
  rw [h1, h3] at h2
  exact h2.symm

/-! ## C4: the top-10 organizations -/

/-- C4: in any produced summary, `top_organizations` has exactly
`min(10, number of distinct organization keys)` entries, is sorted
non-increasing by total funding, breaks funding ties by the organization's
first-encountered order in the Retrieved Set, and every entry carries its
organization's name, project count and total funding straight from the
organization Group Accumulator. -/
theorem C4_top_organizations (ps : List Project) (args : TrendArgs) (mp : Int)
    (r : TrendResult) (h : aggregateTrends ps args mp = some r) :
    r.top_organizations.length = min 10 ((ps.map orgKey).dedup.length)
    ∧ List.Pairwise (fun a b => b.total_funding ≤ a.total_funding)
        r.top_organizations
    ∧ (∀ i j (hij : i < j) (hj : j < r.top_organizations.length),
        (r.top_organizations.get ⟨i, Nat.lt_trans hij hj⟩).total_funding
          = (r.top_organizations.get ⟨j, hj⟩).total_funding →
        firstIdx (r.top_organizations.get ⟨i, Nat.lt_trans hij hj⟩).name
            (ps.map orgKey)
          < firstIdx (r.top_organizations.get ⟨j, hj⟩).name (ps.map orgKey))
    ∧ (∀ e ∈ r.top_organizations,
        (e.name, ({ count := e.projects, funding := e.total_funding } : GroupCell))
          ∈ groupFold orgKey ps) := by
  obtain ⟨-, -, -, -, -, -, htop, -⟩ := aggregateTrends_fields h
  have hnodacc : (groupFold orgKey ps).Nodup :=
    List.Nodup.of_map Prod.fst (groupFold_keys_nodup orgKey ps)
  have hperm := sortDescBy_perm (fun (x : String × GroupCell) => x.2.funding)
    (groupFold orgKey ps)
  have hnodS : (sortDescBy (fun (x : String × GroupCell) => x.2.funding)
      (groupFold orgKey ps)).Nodup := hperm.nodup_iff.mpr hnodacc
  have hsorted := sortDescBy_pairwise (fun (x : String × GroupCell) => x.2.funding)
    (groupFold orgKey ps)
  have htake_le : ((sortDescBy (fun (x : String × GroupCell) => x.2.funding)
      (groupFold orgKey ps)).take 10).length
      ≤ (sortDescBy (fun (x : String × GroupCell) => x.2.funding)
          (groupFold orgKey ps)).length := by
    rw [List.length_take]
    exact min_le_right _ _
  refine ⟨?_, ?_, ?_, ?_⟩
  · rw [htop]
    rw [List.length_map, List.length_take, hperm.length_eq]
    have hdl := nodup_length_eq_dedup ((groupFold orgKey ps).map Prod.fst)
      (ps.map orgKey) (groupFold_keys_nodup orgKey ps)
      (groupFold_keys_mem orgKey ps)
    rw [List.length_map] at hdl
    rw [hdl]
  · rw [htop]
    refine List.pairwise_map.mpr ?_
    exact List.Pairwise.sublist (List.take_sublist _ _) hsorted
  · rw [htop]
    intro i j hij hj hfund
    have hj' : j < ((sortDescBy (fun (x : String × GroupCell) => x.2.funding)
        (groupFold orgKey ps)).take 10).length := by
      rw [List.length_map] at hj
      exact hj
    have hi' : i < ((sortDescBy (fun (x : String × GroupCell) => x.2.funding)
        (groupFold orgKey ps)).take 10).length := Nat.lt_trans hij hj'
    have hjS : j < (sortDescBy (fun (x : String × GroupCell) => x.2.funding)
        (groupFold orgKey ps)).length := lt_of_lt_of_le hj' htake_le
    have hiS : i < (sortDescBy (fun (x : String × GroupCell) => x.2.funding)
        (groupFold orgKey ps)).length := lt_of_lt_of_le hi' htake_le
    have hga : (((sortDescBy (fun (x : String × GroupCell) => x.2.funding) (groupFold orgKey ps)).take 10).map (fun x => ({ name := x.1, projects := x.2.count, total_funding := x.2.funding } : OrgEntry))).get ⟨i, Nat.lt_trans hij hj⟩ = (fun x : String × GroupCell => ({ name := x.1, projects := x.2.count, total_funding := x.2.funding } : OrgEntry)) ((sortDescBy (fun (x : String × GroupCell) => x.2.funding) (groupFold orgKey ps)).get ⟨i, hiS⟩) := by
      simp only [List.get_eq_getElem, List.getElem_map, List.getElem_take]
    have hgb : (((sortDescBy (fun (x : String × GroupCell) => x.2.funding) (groupFold orgKey ps)).take 10).map (fun x => ({ name := x.1, projects := x.2.count, total_funding := x.2.funding } : OrgEntry))).get ⟨j, hj⟩ = (fun x : String × GroupCell => ({ name := x.1, projects := x.2.count, total_funding := x.2.funding } : OrgEntry)) ((sortDescBy (fun (x : String × GroupCell) => x.2.funding) (groupFold orgKey ps)).get ⟨j, hjS⟩) := by
      simp only [List.get_eq_getElem, List.getElem_map, List.getElem_take]
    rw [hga, hgb] at hfund ⊢
    set S := sortDescBy (fun (x : String × GroupCell) => x.2.funding)
      (groupFold orgKey ps) with hS
    set a := S.get ⟨i, hiS⟩ with ha
    set b := S.get ⟨j, hjS⟩ with hb
    have hba : b.2.funding = a.2.funding := hfund.symm
    have haS : a ∈ S := List.get_mem S i hiS
    have hbS : b ∈ S := List.get_mem S j hjS
    have haacc : a ∈ groupFold orgKey ps := hperm.mem_iff.mp haS
    have hbacc : b ∈ groupFold orgKey ps := hperm.mem_iff.mp hbS
    have hidxS : firstIdx a S < firstIdx b S := by
      rw [ha, hb, firstIdx_getElem S hnodS i hiS, firstIdx_getElem S hnodS j hjS]
      exact hij
    have hpa : (fun (y : String × GroupCell) =>
        decide (y.2.funding = a.2.funding)) a = true := by simp
    have hpb : (fun (y : String × GroupCell) =>
        decide (y.2.funding = a.2.funding)) b = true := by simp [hba]
    have h1 := (filter_firstIdx_lt_iff
      (fun (y : String × GroupCell) => decide (y.2.funding = a.2.funding))
      S hnodS a b haS hbS hpa hpb).mpr hidxS
    have hfilter := sortDescBy_filter
      (fun (x : String × GroupCell) => x.2.funding) (a.2.funding)
      (groupFold orgKey ps)
    rw [← hS] at hfilter
    rw [hfilter] at h1
    have h2 := (filter_firstIdx_lt_iff
      (fun (y : String × GroupCell) => decide (y.2.funding = a.2.funding))
      (groupFold orgKey ps) hnodacc a b haacc hbacc hpa hpb).mp h1
    have hka := mapfst_firstIdx (groupFold orgKey ps)
      (groupFold_keys_nodup orgKey ps) a haacc
    have hkb := mapfst_firstIdx (groupFold orgKey ps)
      (groupFold_keys_nodup orgKey ps) b hbacc
    have h3 : firstIdx a.1 ((groupFold orgKey ps).map Prod.fst)
        < firstIdx b.1 ((groupFold orgKey ps).map Prod.fst) := by
      rw [hka, hkb]
      exact h2
    exact pairwise_rel_of_firstIdx_lt ((groupFold orgKey ps).map Prod.fst)
      (groupFold_keys_pairwise orgKey ps) a.1 b.1
      (List.mem_map_of_mem Prod.fst haacc) (List.mem_map_of_mem Prod.fst hbacc) h3
  · intro e he
    rw [htop] at he
    obtain ⟨x, hxmem, rfl⟩ := List.mem_map.mp he
    have hxS : x ∈ sortDescBy (fun (x : String × GroupCell) => x.2.funding)
        (groupFold orgKey ps) := (List.take_sublist _ _).subset hxmem
    exact hperm.mem_iff.mp hxS

/-- Witness for C4 on the concrete three-record Retrieved Set (two distinct
organizations): the list length and descending order are produced by the
theorem itself. -/
theorem C4_top_organizations_witness :
    resultW.top_organizations.length = min 10 ((psW.map orgKey).dedup.length)
    ∧ List.Pairwise (fun a b => b.total_funding ≤ a.total_funding)
        resultW.top_organizations :=
  ⟨(C4_top_organizations psW {} 500 resultW rfl).1,
   (C4_top_organizations psW {} 500 resultW rfl).2.1⟩

/-! ## C5: the common themes -/

/-- Every token of the stream survived the qualification filter: longer than
3 characters and not a stop word. -/
theorem tokenStream_qualifies (ps : List Project) (w : String)
    (hw : w ∈ tokenStream ps) : 3 < w.length ∧ w ∉ stop_words := by
  obtain ⟨l, hl, hwl⟩ := List.mem_flatten.mp hw
  obtain ⟨p, -, rfl⟩ := List.mem_map.mp hl
  have := List.mem_filter.mp hwl
  simpa using this.2

/-- C5: in any produced summary, `common_themes` has exactly
`min(20, number of distinct qualifying tokens)` entries, is sorted
non-increasing by frequency, breaks frequency ties by the token's
first-occurrence order in the token stream (titles in Retrieved-Set order,
words in title order, lower-cased, whitespace-split, stripped to
alphanumeric characters), and every listed token is longer than 3
characters, is no stop word, and occurs in that stream. -/
theorem C5_common_themes (ps : List Project) (args : TrendArgs) (mp : Int)
    (r : TrendResult) (h : aggregateTrends ps args mp = some r) :
    r.common_themes.length = min 20 ((tokenStream ps).dedup.length)
    ∧ List.Pairwise (fun a b => b.frequency ≤ a.frequency) r.common_themes
    ∧ (∀ i j (hij : i < j) (hj : j < r.common_themes.length),
        (r.common_themes.get ⟨i, Nat.lt_trans hij hj⟩).frequency
          = (r.common_themes.get ⟨j, hj⟩).frequency →
        firstIdx (r.common_themes.get ⟨i, Nat.lt_trans hij hj⟩).word
            (tokenStream ps)
          < firstIdx (r.common_themes.get ⟨j, hj⟩).word (tokenStream ps))
    ∧ (∀ t ∈ r.common_themes,
        3 < t.word.length ∧ t.word ∉ stop_words ∧ t.word ∈ tokenStream ps) := by
  obtain ⟨-, -, -, -, -, -, -, hth⟩ := aggregateTrends_fields h
  have hnodacc : (titleWordCounts ps).Nodup :=
    List.Nodup.of_map Prod.fst (titleWordCounts_keys_nodup ps)
  have hperm := sortDescBy_perm (fun (x : String × Nat) => x.2)
    (titleWordCounts ps)
  have hnodS : (sortDescBy (fun (x : String × Nat) => x.2)
      (titleWordCounts ps)).Nodup := hperm.nodup_iff.mpr hnodacc
  have hsorted := sortDescBy_pairwise (fun (x : String × Nat) => x.2)
    (titleWordCounts ps)
  have htake_le : ((sortDescBy (fun (x : String × Nat) => x.2)
      (titleWordCounts ps)).take 20).length
      ≤ (sortDescBy (fun (x : String × Nat) => x.2)
          (titleWordCounts ps)).length := by
    rw [List.length_take]
    exact min_le_right _ _
  refine ⟨?_, ?_, ?_, ?_⟩
  · rw [hth]
    rw [List.length_map, List.length_take, hperm.length_eq]
    have hdl := nodup_length_eq_dedup ((titleWordCounts ps).map Prod.fst)
      (tokenStream ps) (titleWordCounts_keys_nodup ps)
      (titleWordCounts_keys_mem ps)
    rw [List.length_map] at hdl
    rw [hdl]
  · rw [hth]
    refine List.pairwise_map.mpr ?_
    exact List.Pairwise.sublist (List.take_sublist _ _) hsorted
  · rw [hth]
    intro i j hij hj hfreq
    have hj' : j < ((sortDescBy (fun (x : String × Nat) => x.2)
        (titleWordCounts ps)).take 20).length := by
      rw [List.length_map] at hj
      exact hj
    have hi' : i < ((sortDescBy (fun (x : String × Nat) => x.2)
        (titleWordCounts ps)).take 20).length := Nat.lt_trans hij hj'
    have hjS : j < (sortDescBy (fun (x : String × Nat) => x.2)
        (titleWordCounts ps)).length := lt_of_lt_of_le hj' htake_le
    have hiS : i < (sortDescBy (fun (x : String × Nat) => x.2)
        (titleWordCounts ps)).length := lt_of_lt_of_le hi' htake_le
    have hga : (((sortDescBy (fun (x : String × Nat) => x.2) (titleWordCounts ps)).take 20).map (fun x => ({ word := x.1, frequency := x.2 } : ThemeEntry))).get ⟨i, Nat.lt_trans hij hj⟩ = (fun x : String × Nat => ({ word := x.1, frequency := x.2 } : ThemeEntry)) ((sortDescBy (fun (x : String × Nat) => x.2) (titleWordCounts ps)).get ⟨i, hiS⟩) := by
      simp only [List.get_eq_getElem, List.getElem_map, List.getElem_take]
    have hgb : (((sortDescBy (fun (x : String × Nat) => x.2) (titleWordCounts ps)).take 20).map (fun x => ({ word := x.1, frequency := x.2 } : ThemeEntry))).get ⟨j, hj⟩ = (fun x : String × Nat => ({ word := x.1, frequency := x.2 } : ThemeEntry)) ((sortDescBy (fun (x : String × Nat) => x.2) (titleWordCounts ps)).get ⟨j, hjS⟩) := by
      simp only [List.get_eq_getElem, List.getElem_map, List.getElem_take]
    rw [hga, hgb] at hfreq ⊢
    set S := sortDescBy (fun (x : String × Nat) => x.2) (titleWordCounts ps)
      with hS
    set a := S.get ⟨i, hiS⟩ with ha
    set b := S.get ⟨j, hjS⟩ with hb
    have hba : b.2 = a.2 := hfreq.symm
    have haS : a ∈ S := List.get_mem S i hiS
    have hbS : b ∈ S := List.get_mem S j hjS
    have haacc : a ∈ titleWordCounts ps := hperm.mem_iff.mp haS
    have hbacc : b ∈ titleWordCounts ps := hperm.mem_iff.mp hbS
    have hidxS : firstIdx a S < firstIdx b S := by
      rw [ha, hb, firstIdx_getElem S hnodS i hiS, firstIdx_getElem S hnodS j hjS]
      exact hij
    have hpa : (fun (y : String × Nat) => decide (y.2 = a.2)) a = true := by simp
    have hpb : (fun (y : String × Nat) => decide (y.2 = a.2)) b = true := by
      simp [hba]
    have h1 := (filter_firstIdx_lt_iff
      (fun (y : String × Nat) => decide (y.2 = a.2))
      S hnodS a b haS hbS hpa hpb).mpr hidxS
    have hfilter := sortDescBy_filter (fun (x : String × Nat) => x.2) (a.2)
      (titleWordCounts ps)
    rw [← hS] at hfilter
    rw [hfilter] at h1
    have h2 := (filter_firstIdx_lt_iff
      (fun (y : String × Nat) => decide (y.2 = a.2))
      (titleWordCounts ps) hnodacc a b haacc hbacc hpa hpb).mp h1
    have hka := mapfst_firstIdx (titleWordCounts ps)
      (titleWordCounts_keys_nodup ps) a haacc
    have hkb := mapfst_firstIdx (titleWordCounts ps)
      (titleWordCounts_keys_nodup ps) b hbacc
    have h3 : firstIdx a.1 ((titleWordCounts ps).map Prod.fst)
        < firstIdx b.1 ((titleWordCounts ps).map Prod.fst) := by
      rw [hka, hkb]
      exact h2
    exact pairwise_rel_of_firstIdx_lt ((titleWordCounts ps).map Prod.fst)
      (titleWordCounts_keys_pairwise ps) a.1 b.1
      (List.mem_map_of_mem Prod.fst haacc) (List.mem_map_of_mem Prod.fst hbacc) h3
  · intro t ht
    rw [hth] at ht
    obtain ⟨x, hxmem, rfl⟩ := List.mem_map.mp ht
    have hxS : x ∈ sortDescBy (fun (x : String × Nat) => x.2)
        (titleWordCounts ps) := (List.take_sublist _ _).subset hxmem
    have hxacc : x ∈ titleWordCounts ps := hperm.mem_iff.mp hxS
    have hxstream : x.1 ∈ tokenStream ps :=
      (titleWordCounts_keys_mem ps x.1).mp (List.mem_map_of_mem Prod.fst hxacc)
    obtain ⟨hlen, hstop⟩ := tokenStream_qualifies ps x.1 hxstream
    exact ⟨hlen, hstop, hxstream⟩

/-- Witness for C5 on the concrete three-record Retrieved Set: the themes
list has one entry per distinct qualifying token and is sorted by
frequency. -/
theorem C5_common_themes_witness :
    resultW.common_themes.length = min 20 ((tokenStream psW).dedup.length)
    ∧ List.Pairwise (fun a b => b.frequency ≤ a.frequency)
        resultW.common_themes :=
  ⟨(C5_common_themes psW {} 500 resultW rfl).1,
   (C5_common_themes psW {} 500 resultW rfl).2.1⟩
